import Mathlib

/-!
Verification of the tool-dispatch and authentication-resolution core of the
interzoid-mcp-server repository.

The embedding follows the Go source:
  - client.go: callInterzoidAPI (URL building, credential header, response
    classification for 200 / 402 / other statuses);
  - the tool registry file: getAPIKey (credential precedence with Bearer
    stripping), getArguments (safe argument-bag extraction), genericHandler
    (required/optional parameter validation and dispatch).

Effectful pieces are made explicit:
  - the INTERZOID_API_KEY environment variable (os.Getenv) is passed in as an
    explicit `envKey` argument;
  - the network round trip (httpClient.Do plus io.ReadAll) is injected as an
    `HttpOutcome` oracle value: either a transport error or a status/body pair;
  - JSON decoding (the external encoding/json library) is an abstract
    `unmarshal` parameter returning either an error message or the decoded
    string-keyed object, exactly as json.Unmarshal into map[string]interface
    either fails or yields such a map.
-/

set_option autoImplicit false

namespace Interzoid

/-- Dynamic values of the incoming argument bag, standing for the Go
interface values carried in map[string]interface. The only inspection the
source performs is the type assertion raw.(string), which succeeds exactly
on the str constructor. -/
inductive GoValue where
  | str (s : String)
  | num (n : Int)
  | boolean (b : Bool)
  | nullVal
  deriving DecidableEq, Repr

/-- JSON documents, standing for the JSON-compatible values produced by the
external encoding/json library when decoding a response body. -/
inductive Json where
  | null
  | bool (b : Bool)
  | num (n : Int)
  | str (s : String)
  | arr (xs : List Json)
  | obj (fields : List (String × Json))

/-- A decoded top-level JSON object, the target type of json.Unmarshal into
map[string]interface in the source. -/
abbrev JsonObj := List (String × Json)

/-- Abstract JSON decoder standing for the external json.Unmarshal into a
string-keyed map: it either fails with an error message or yields the decoded
object. -/
abbrev Unmarshal := String → Except String JsonObj

/-- Compact JSON rendering, standing for the external json.MarshalIndent of a
string-keyed map in genericHandler. The exact layout of the external library
is not modelled; what matters to the claims is that the handler returns the
rendered document, and every rendered object is a non-empty string framed by
braces. -/
def Json.render : Json → String
  | .null => "null"
  | .bool b => if b then "true" else "false"
  | .num n => toString n
  | .str s => "\"" ++ s ++ "\""
  | .arr xs => "[" ++ String.intercalate "," (xs.attach.map fun x => Json.render x.1) ++ "]"
  | .obj fs => "\x7b" ++ String.intercalate ","
      (fs.attach.map fun f => "\"" ++ f.1.1 ++ "\":" ++ Json.render f.1.2) ++ "\x7d"
decreasing_by
  · exact Nat.lt_trans (List.sizeOf_lt_of_mem x.2) (by simp)
  · have h₁ : sizeOf f.1.2 < sizeOf f.1 := by rcases f with ⟨⟨a, b⟩, hf⟩; simp
    exact Nat.lt_trans (Nat.lt_trans h₁ (List.sizeOf_lt_of_mem f.2)) (by simp)

/-- Rendering of a decoded object document, as json.MarshalIndent is applied
to the map returned by callInterzoidAPI. -/
def marshalIndent (o : JsonObj) : String := Json.render (.obj o)

/-- The Arguments field of the incoming request parameters: nil, a
string-keyed map, or a value of any other dynamic type (the default branch of
the type switch in getArguments). -/
inductive ArgsField where
  | nil
  | strMap (m : List (String × GoValue))
  | nonMap
  deriving DecidableEq, Repr

/-- The parts of the incoming mcp.CallToolRequest the source reads: the
Authorization header (empty string when the header is absent, as returned by
Header.Get) and the Arguments field. -/
structure CallToolRequest where
  authHeader : String
  arguments : ArgsField
  deriving DecidableEq, Repr

/-- The mcp.CallToolResult values the handler builds: NewToolResultError sets
the error marker, NewToolResultText does not; both carry a text payload. -/
structure CallToolResult where
  isError : Bool
  text : String
  deriving DecidableEq, Repr

/-- Constructor mirroring mcp.NewToolResultError. -/
def toolResultError (msg : String) : CallToolResult := ⟨true, msg⟩

/-- Constructor mirroring mcp.NewToolResultText. -/
def toolResultText (t : String) : CallToolResult := ⟨false, t⟩

/-- The paramMapping struct of the source: a tool-facing parameter name and
the actual API query parameter name. -/
structure paramMapping where
  toolName : String
  apiName : String
  deriving DecidableEq, Repr

/-- The same helper of the source: both names equal. -/
def same (name : String) : paramMapping := ⟨name, name⟩

/-- The mapped helper of the source: distinct tool and API names. -/
def mapped (toolName apiName : String) : paramMapping := ⟨toolName, apiName⟩

/-- getAPIKey of the source: the Authorization header of the incoming request
wins when non-empty, with a Bearer prefix of either capitalisation stripped
when the header is strictly longer than the 7-character prefix; otherwise the
INTERZOID_API_KEY environment value (passed here explicitly as envKey). The
source slices bytes; on the branch conditions byte and character slicing
agree because the compared prefix is ASCII, so the embedding uses character
operations. -/
def getAPIKey (request : CallToolRequest) (envKey : String) : String :=
  let auth := request.authHeader
  if auth ≠ "" then
    if auth.length > 7 ∧ (auth.take 7 = "Bearer " ∨ auth.take 7 = "bearer ") then
      auth.drop 7
    else
      auth
  else
    envKey

/-- getArguments of the source: nil arguments and arguments of any non-map
dynamic type both yield a fresh empty map; a string-keyed map is returned as
is. -/
def getArguments (request : CallToolRequest) : List (String × GoValue) :=
  match request.arguments with
  | .nil => []
  | .strMap m => m
  | .nonMap => []

/-- Lookup in the argument bag, standing for the Go map index args[k] with
its ok flag. -/
def lookupArg (args : List (String × GoValue)) (k : String) : Option GoValue :=
  match args with
  | [] => none
  | (k₁, v) :: rest => if k₁ = k then some v else lookupArg rest k

/-- Assignment params[k] = v on the outbound string map: replaces the binding
of k when present, appends it otherwise, and keeps every other binding. This
is also the semantics of url.Values.Set for single-valued keys. -/
def setParam (ps : List (String × String)) (k v : String) : List (String × String) :=
  match ps with
  | [] => [(k, v)]
  | (k₁, v₁) :: rest => if k₁ = k then (k, v) :: rest else (k₁, v₁) :: setParam rest k v

/-- Lookup on the outbound string map. -/
def lookupParam (ps : List (String × String)) (k : String) : Option String :=
  match ps with
  | [] => none
  | (k₁, v) :: rest => if k₁ = k then some v else lookupParam rest k

/-- The required-parameter loop of genericHandler: for each mapping in order,
a missing caller name fails with the Missing required parameter message, a
present non-string value fails with the must-be-a-string message, and a
string value is assigned under the API name. -/
def processRequired (requiredParams : List paramMapping)
    (args : List (String × GoValue)) (params : List (String × String)) :
    Except CallToolResult (List (String × String)) :=
  match requiredParams with
  | [] => .ok params
  | p :: rest =>
    match lookupArg args p.toolName with
    | none => .error (toolResultError ("Missing required parameter: " ++ p.toolName))
    | some raw =>
      match raw with
      | .str val => processRequired rest args (setParam params p.apiName val)
      | _ => .error (toolResultError ("Parameter " ++ p.toolName ++ " must be a string"))

/-- The optional-parameter loop of genericHandler: a present, string-typed,
non-empty value is assigned under the API name; every other case is skipped
silently. -/
def processOptional (optionalParams : List paramMapping)
    (args : List (String × GoValue)) (params : List (String × String)) :
    List (String × String) :=
  match optionalParams with
  | [] => params
  | p :: rest =>
    match lookupArg args p.toolName with
    | some (.str s) =>
      if s ≠ "" then processOptional rest args (setParam params p.apiName s)
      else processOptional rest args params
    | _ => processOptional rest args params

/-- What the handler decides before any network activity: either an early
error result (validation failed, no request is issued) or the credential,
endpoint-bound parameter set to hand to callInterzoidAPI. -/
inductive DispatchAction where
  | earlyError (res : CallToolResult)
  | callAPI (apiKey : String) (params : List (String × String))
  deriving DecidableEq, Repr

/-- The pure prefix of the closure built by genericHandler: resolve the
credential, extract the argument bag, run the required loop (stopping at the
first failure, before any network call) and then the optional loop. -/
def prepareCall (requiredParams optionalParams : List paramMapping)
    (envKey : String) (request : CallToolRequest) : DispatchAction :=
  let apiKey := getAPIKey request envKey
  let args := getArguments request
  match processRequired requiredParams args [] with
  | .error res => .earlyError res
  | .ok params => .callAPI apiKey (processOptional optionalParams args params)

/-- The network round trip injected as an oracle: httpClient.Do failing (or
timing out) is a transport error carried with its message; otherwise the
response is a status code and the body read by io.ReadAll. -/
inductive HttpOutcome where
  | transportError (msg : String)
  | response (status : Nat) (body : String)
  deriving DecidableEq, Repr

/-- The fixed base address of client.go. -/
def interzoidBaseURL : String := "https://api.interzoid.com"

/-- The outbound request as built by callInterzoidAPI before sending: base
address joined with the endpoint, the query assembled by url.Values.Set over
the parameter set (url.Values.Encode then serialises it; the claims only
inspect which names and values the query holds), and the x-api-key header set
exactly when the credential is non-empty. -/
structure HttpRequest where
  baseURL : String
  endpoint : String
  query : List (String × String)
  headers : List (String × String)
  deriving DecidableEq, Repr

/-- The request-building prefix of callInterzoidAPI in client.go. -/
def buildRequest (apiKey endpoint : String) (params : List (String × String)) :
    HttpRequest :=
  { baseURL := interzoidBaseURL
    endpoint := endpoint
    query := params.foldl (fun q kv => setParam q kv.1 kv.2) []
    headers := if apiKey ≠ "" then [("x-api-key", apiKey)] else [] }

/-- The response-classification suffix of callInterzoidAPI in client.go,
with the network outcome injected: a transport error wraps the message; a 402
body that decodes as JSON becomes the payment-required envelope (status
marker, x402 flag, and the decoded requirements document) returned as a
success, while an undecodable 402 body becomes an error embedding the raw
body; any status other than 402 and 200 becomes an error embedding the status
code and raw body; a 200 body is decoded, a decode failure becoming the
failed-to-parse error. -/
def callInterzoidAPI (unmarshal : Unmarshal) (apiKey endpoint : String)
    (params : List (String × String)) (outcome : HttpOutcome) :
    Except String JsonObj :=
  match outcome with
  | .transportError e => .error ("API request failed: " ++ e)
  | .response status body =>
    if status = 402 then
      match unmarshal body with
      | .error _ => .error ("402 Payment Required: " ++ body)
      | .ok paymentReq =>
        .ok [("status", Json.str "payment_required"),
             ("x402", Json.bool true),
             ("paymentRequirements", Json.obj paymentReq)]
    else if status ≠ 200 then
      .error ("API returned status " ++ toString status ++ ": " ++ body)
    else
      match unmarshal body with
      | .error e => .error ("failed to parse JSON response: " ++ e)
      | .ok result => .ok result

/-- The full handler closure built by genericHandler: validate and dispatch,
then convert the API result into a tool result. Every branch of the source
returns a nil Go error next to the result; the second component records that
nil. The MarshalIndent failure branch of the source is unreachable here
because rendering of the modelled document type is total, matching
encoding/json on map values of JSON-compatible type. -/
def genericHandler (unmarshal : Unmarshal) (endpoint : String)
    (requiredParams optionalParams : List paramMapping)
    (envKey : String) (request : CallToolRequest) (outcome : HttpOutcome) :
    CallToolResult × Option String :=
  match prepareCall requiredParams optionalParams envKey request with
  | .earlyError res => (res, none)
  | .callAPI apiKey params =>
    match callInterzoidAPI unmarshal apiKey endpoint params outcome with
    | .error e => (toolResultError e, none)
    | .ok result => (toolResultText (marshalIndent result), none)

/-- A concrete decoder standing in for the external JSON library on closed
inputs: it recognises two small documents and rejects everything else, which
is a legitimate behaviour of the abstract unmarshal parameter. Used only to
evaluate the theorems on concrete calls. -/
def sampleUnmarshal : Unmarshal := fun s =>
  if s = "\x7b\"amount\":\"12500\"\x7d" then .ok [("amount", Json.str "12500")]
  else if s = "\x7b\"score\":98\x7d" then .ok [("score", Json.num 98)]
  else .error "invalid JSON document"

/-- Substring containment, used to state that an error message carries the
status code and the raw body text. -/
def containsSubstr (hay needle : String) : Prop := ∃ a b, hay = a ++ needle ++ b

/-! Helper lemmas. -/

/-- A string of length zero is the empty string. -/
theorem length_zero_eq_empty (s : String) (h : s.length = 0) : s = "" := by
  cases s with
  | mk data =>
    cases data with
    | nil => rfl
    | cons c cs => simp [String.length] at h

/-- Appending to a non-empty string on the left keeps it non-empty. -/
theorem append_ne_empty (a b : String) (h : a ≠ "") : a ++ b ≠ "" := by
  intro hc
  apply h
  have hl := congrArg String.length hc
  rw [String.length_append] at hl
  have h₀ : ("" : String).length = 0 := rfl
  rw [h₀] at hl
  exact length_zero_eq_empty a (Nat.eq_zero_of_add_eq_zero_right hl)

/-- Assigning a key makes lookup of that key return the assigned value. -/
theorem lookupParam_setParam_self (ps : List (String × String)) (k v : String) :
    lookupParam (setParam ps k v) k = some v := by
  induction ps with
  | nil => simp [setParam, lookupParam]
  | cons hd tl ih =>
    obtain ⟨k₁, v₁⟩ := hd
    by_cases h : k₁ = k <;> simp [setParam, lookupParam, h, ih]

/-- Assigning a key leaves lookup of any other key unchanged. -/
theorem lookupParam_setParam_ne (ps : List (String × String)) (k v n : String)
    (h : n ≠ k) : lookupParam (setParam ps k v) n = lookupParam ps n := by
  induction ps with
  | nil =>
    simp only [setParam, lookupParam]
    rw [if_neg (fun hc => h hc.symm)]
  | cons hd tl ih =>
    obtain ⟨k₁, v₁⟩ := hd
    by_cases h₁ : k₁ = k
    · subst h₁
      have hkn : ¬k₁ = n := fun hc => h hc.symm
      simp [setParam, lookupParam, hkn]
    · simp [setParam, lookupParam, h₁, ih]

/-- Key presence after assignment: the assigned key, or a key already there. -/
theorem lookupParam_setParam_isSome (ps : List (String × String)) (k v n : String) :
    (lookupParam (setParam ps k v) n).isSome ↔
      n = k ∨ (lookupParam ps n).isSome := by
  by_cases h : n = k
  · subst h
    simp [lookupParam_setParam_self]
  · simp [lookupParam_setParam_ne ps k v n h, h]

/-- Keys of the query map assembled by url.Values.Set over a parameter list
all come from that list. -/
theorem foldl_setParam_keys (l : List (String × String)) (acc : List (String × String))
    (n : String) (h : (lookupParam (l.foldl (fun q kv => setParam q kv.1 kv.2) acc) n).isSome) :
    n ∈ l.map Prod.fst ∨ (lookupParam acc n).isSome := by
  induction l generalizing acc with
  | nil => exact Or.inr h
  | cons hd tl ih =>
    rcases ih (setParam acc hd.1 hd.2) h with h₁ | h₁
    · exact Or.inl (by simp [h₁])
    · rcases (lookupParam_setParam_isSome acc hd.1 hd.2 n).mp h₁ with h₂ | h₂
      · exact Or.inl (by simp [h₂])
      · exact Or.inr h₂

/-- A rendered object document is never the empty string: it opens with a
brace. -/
theorem marshalIndent_ne_empty (o : JsonObj) : marshalIndent o ≠ "" := by
  unfold marshalIndent
  rw [Json.render]
  exact append_ne_empty _ _ (append_ne_empty _ _ (by decide))

/-- Every error message produced by the response classification is a
non-empty string. -/
theorem callInterzoidAPI_error_ne_empty (unmarshal : Unmarshal)
    (apiKey endpoint : String) (params : List (String × String))
    (outcome : HttpOutcome) (e : String)
    (h : callInterzoidAPI unmarshal apiKey endpoint params outcome = .error e) :
    e ≠ "" := by
  cases outcome with
  | transportError msg =>
    simp only [callInterzoidAPI, Except.error.injEq] at h
    rw [← h]
    exact append_ne_empty _ _ (by decide)
  | response status body =>
    simp only [callInterzoidAPI] at h
    by_cases h402 : status = 402
    · simp only [h402, if_true] at h
      cases hu : unmarshal body with
      | error msg =>
        rw [hu] at h
        simp only [Except.error.injEq] at h
        rw [← h]
        exact append_ne_empty _ _ (by decide)
      | ok doc => rw [hu] at h; simp at h
    · by_cases h200 : status = 200
      · subst h200
        rw [if_neg (by decide : ¬(200 = 402)), if_neg (by decide : ¬(200 ≠ 200))] at h
        cases hu : unmarshal body with
        | error msg =>
          rw [hu] at h
          simp only [Except.error.injEq] at h
          rw [← h]
          exact append_ne_empty _ _ (by decide)
        | ok doc => rw [hu] at h; simp at h
      · simp only [h402, if_false, h200, ne_eq, not_false_eq_true, if_true, reduceIte,
          Except.error.injEq] at h
        rw [← h]
        exact append_ne_empty _ _ (append_ne_empty _ _ (append_ne_empty _ _ (by decide)))

/-- Every early failure of the required-parameter loop is an error-marked
result with a non-empty message. -/
theorem processRequired_error_shape (rp : List paramMapping)
    (args : List (String × GoValue)) :
    ∀ ps res, processRequired rp args ps = .error res →
      res.isError = true ∧ res.text ≠ "" := by
  induction rp with
  | nil => intro ps res h; simp [processRequired] at h
  | cons p rest ih =>
    intro ps res h
    cases hl : lookupArg args p.toolName with
    | none =>
      simp only [processRequired, hl, Except.error.injEq] at h
      rw [← h]
      exact ⟨rfl, append_ne_empty _ _ (by decide)⟩
    | some raw =>
      cases raw with
      | str val =>
        simp only [processRequired, hl] at h
        exact ih _ _ h
      | num n =>
        simp only [processRequired, hl, Except.error.injEq] at h
        rw [← h]
        exact ⟨rfl, append_ne_empty _ _ (append_ne_empty _ _ (by decide))⟩
      | boolean b =>
        simp only [processRequired, hl, Except.error.injEq] at h
        rw [← h]
        exact ⟨rfl, append_ne_empty _ _ (append_ne_empty _ _ (by decide))⟩
      | nullVal =>
        simp only [processRequired, hl, Except.error.injEq] at h
        rw [← h]
        exact ⟨rfl, append_ne_empty _ _ (append_ne_empty _ _ (by decide))⟩

/-- When every required parameter before p is supplied as a string and p is
absent from the bag, the loop stops at p with the Missing required parameter
message. -/
theorem processRequired_missing (p : paramMapping) (post : List paramMapping)
    (args : List (String × GoValue)) (hp : lookupArg args p.toolName = none) :
    ∀ (pre : List paramMapping) ps,
      (∀ q ∈ pre, ∃ s, lookupArg args q.toolName = some (GoValue.str s)) →
      processRequired (pre ++ p :: post) args ps =
        .error (toolResultError ("Missing required parameter: " ++ p.toolName)) := by
  intro pre
  induction pre with
  | nil =>
    intro ps _
    simp [processRequired, hp]
  | cons q pre ih =>
    intro ps hpre
    obtain ⟨s, hs⟩ := hpre q (by simp)
    simp only [List.cons_append, processRequired, hs]
    exact ih _ (fun r hr => hpre r (by simp [hr]))

/-- When every required parameter before p is supplied as a string and p is
supplied with a non-string value, the loop stops at p with the must-be-a-
string message. -/
theorem processRequired_badtype (p : paramMapping) (post : List paramMapping)
    (args : List (String × GoValue)) (v : GoValue)
    (hp : lookupArg args p.toolName = some v) (hv : ∀ s, v ≠ GoValue.str s) :
    ∀ (pre : List paramMapping) ps,
      (∀ q ∈ pre, ∃ s, lookupArg args q.toolName = some (GoValue.str s)) →
      processRequired (pre ++ p :: post) args ps =
        .error (toolResultError ("Parameter " ++ p.toolName ++ " must be a string")) := by
  intro pre
  induction pre with
  | nil =>
    intro ps _
    cases v with
    | str s => exact absurd rfl (hv s)
    | num n => simp [processRequired, hp]
    | boolean b => simp [processRequired, hp]
    | nullVal => simp [processRequired, hp]
  | cons q pre ih =>
    intro ps hpre
    obtain ⟨s, hs⟩ := hpre q (by simp)
    simp only [List.cons_append, processRequired, hs]
    exact ih _ (fun r hr => hpre r (by simp [hr]))

/-- When every required parameter is supplied as a string, the loop
succeeds. -/
theorem processRequired_ok (rp : List paramMapping)
    (args : List (String × GoValue)) :
    ∀ ps, (∀ q ∈ rp, ∃ s, lookupArg args q.toolName = some (GoValue.str s)) →
      ∃ params, processRequired rp args ps = .ok params := by
  induction rp with
  | nil => intro ps _; exact ⟨ps, rfl⟩
  | cons p rest ih =>
    intro ps h
    obtain ⟨s, hs⟩ := h p (by simp)
    simp only [processRequired, hs]
    exact ih _ (fun q hq => h q (by simp [hq]))

/-- The required-parameter loop touches only the API names it maps. -/
theorem processRequired_preserve (rp : List paramMapping)
    (args : List (String × GoValue)) (n : String) :
    ∀ ps params, processRequired rp args ps = .ok params →
      n ∉ rp.map paramMapping.apiName →
      lookupParam params n = lookupParam ps n := by
  induction rp with
  | nil =>
    intro ps params h _
    simp only [processRequired, Except.ok.injEq] at h
    rw [← h]
  | cons p rest ih =>
    intro ps params h hn
    simp only [List.map_cons, List.mem_cons, not_or] at hn
    cases hl : lookupArg args p.toolName with
    | none => simp [processRequired, hl] at h
    | some raw =>
      cases raw with
      | str val =>
        simp only [processRequired, hl] at h
        rw [ih _ _ h hn.2, lookupParam_setParam_ne _ _ _ _ hn.1]
      | num m => simp [processRequired, hl] at h
      | boolean b => simp [processRequired, hl] at h
      | nullVal => simp [processRequired, hl] at h

/-- Keys present after the required-parameter loop are exactly the mapped
API names plus keys already present. -/
theorem processRequired_keys (rp : List paramMapping)
    (args : List (String × GoValue)) (n : String) :
    ∀ ps params, processRequired rp args ps = .ok params →
      ((lookupParam params n).isSome ↔
        n ∈ rp.map paramMapping.apiName ∨ (lookupParam ps n).isSome) := by
  induction rp with
  | nil =>
    intro ps params h
    simp only [processRequired, Except.ok.injEq] at h
    rw [← h]
    simp
  | cons p rest ih =>
    intro ps params h
    cases hl : lookupArg args p.toolName with
    | none => simp [processRequired, hl] at h
    | some raw =>
      cases raw with
      | str val =>
        simp only [processRequired, hl] at h
        rw [ih _ _ h, lookupParam_setParam_isSome]
        simp only [List.map_cons, List.mem_cons]
        tauto
      | num m => simp [processRequired, hl] at h
      | boolean b => simp [processRequired, hl] at h
      | nullVal => simp [processRequired, hl] at h

/-- With pairwise-distinct API names, each required parameter ends up bound
to the string supplied for it. -/
theorem processRequired_values (rp : List paramMapping)
    (args : List (String × GoValue)) :
    ∀ ps params, processRequired rp args ps = .ok params →
      rp.Pairwise (fun a b => a.apiName ≠ b.apiName) →
      ∀ q ∈ rp, ∀ s, lookupArg args q.toolName = some (GoValue.str s) →
        lookupParam params q.apiName = some s := by
  induction rp with
  | nil => intro ps params _ _ q hq; simp at hq
  | cons p rest ih =>
    intro ps params h hpw q hq s hqs
    rw [List.pairwise_cons] at hpw
    cases hl : lookupArg args p.toolName with
    | none => simp [processRequired, hl] at h
    | some raw =>
      cases raw with
      | str val =>
        simp only [processRequired, hl] at h
        rcases List.mem_cons.mp hq with hq₁ | hq₁
        · subst hq₁
          rw [hqs] at hl
          injection hl with hl₁
          injection hl₁ with hl₂
          subst hl₂
          rw [processRequired_preserve rest args q.apiName _ _ h
                (by simp only [List.mem_map]; rintro ⟨o, ho, he⟩; exact hpw.1 o ho he.symm),
              lookupParam_setParam_self]
        · exact ih _ _ h hpw.2 q hq₁ s hqs
      | num m => simp [processRequired, hl] at h
      | boolean b => simp [processRequired, hl] at h
      | nullVal => simp [processRequired, hl] at h

/-- The optional-parameter loop touches only the API names it maps. -/
theorem processOptional_preserve (op : List paramMapping)
    (args : List (String × GoValue)) (n : String) :
    ∀ ps, n ∉ op.map paramMapping.apiName →
      lookupParam (processOptional op args ps) n = lookupParam ps n := by
  induction op with
  | nil => intro ps _; rfl
  | cons p rest ih =>
    intro ps hn
    simp only [List.map_cons, List.mem_cons, not_or] at hn
    cases hl : lookupArg args p.toolName with
    | none =>
      simp only [processOptional, hl]
      exact ih ps hn.2
    | some raw =>
      cases raw with
      | str s =>
        simp only [processOptional, hl]
        by_cases he : s = ""
        · rw [if_neg (by simp [he])]
          exact ih ps hn.2
        · rw [if_pos he]
          rw [ih _ hn.2, lookupParam_setParam_ne _ _ _ _ hn.1]
      | num m =>
        simp only [processOptional, hl]
        exact ih ps hn.2
      | boolean b =>
        simp only [processOptional, hl]
        exact ih ps hn.2
      | nullVal =>
        simp only [processOptional, hl]
        exact ih ps hn.2

/-- Keys present after the optional-parameter loop are either mapped API
names or keys already present. -/
theorem processOptional_keys (op : List paramMapping)
    (args : List (String × GoValue)) (n : String) :
    ∀ ps, (lookupParam (processOptional op args ps) n).isSome →
      n ∈ op.map paramMapping.apiName ∨ (lookupParam ps n).isSome := by
  induction op with
  | nil => intro ps h; exact Or.inr h
  | cons p rest ih =>
    intro ps h
    cases hl : lookupArg args p.toolName with
    | none =>
      simp only [processOptional, hl] at h
      rcases ih ps h with h₁ | h₁
      · exact Or.inl (by simp [h₁])
      · exact Or.inr h₁
    | some raw =>
      cases raw with
      | str s =>
        simp only [processOptional, hl] at h
        by_cases he : s = ""
        · rw [if_neg (by simp [he])] at h
          rcases ih ps h with h₁ | h₁
          · exact Or.inl (by simp [h₁])
          · exact Or.inr h₁
        · rw [if_pos he] at h
          rcases ih _ h with h₁ | h₁
          · exact Or.inl (by simp [h₁])
          · rcases (lookupParam_setParam_isSome ps p.apiName s n).mp h₁ with h₂ | h₂
            · exact Or.inl (by simp [h₂])
            · exact Or.inr h₂
      | num m =>
        simp only [processOptional, hl] at h
        rcases ih ps h with h₁ | h₁
        · exact Or.inl (by simp [h₁])
        · exact Or.inr h₁
      | boolean b =>
        simp only [processOptional, hl] at h
        rcases ih ps h with h₁ | h₁
        · exact Or.inl (by simp [h₁])
        · exact Or.inr h₁
      | nullVal =>
        simp only [processOptional, hl] at h
        rcases ih ps h with h₁ | h₁
        · exact Or.inl (by simp [h₁])
        · exact Or.inr h₁

/-- Absent optional parameters contribute nothing. -/
theorem processOptional_absent (op : List paramMapping)
    (args : List (String × GoValue))
    (h : ∀ o ∈ op, lookupArg args o.toolName = none) :
    ∀ ps, processOptional op args ps = ps := by
  induction op with
  | nil => intro ps; rfl
  | cons p rest ih =>
    intro ps
    have hp := h p (by simp)
    simp only [processOptional, hp]
    exact ih (fun o ho => h o (by simp [ho])) ps

/-- Inclusion characterisation of one optional parameter whose API name is
not mapped by any other entry of the loop and not already bound: it ends up
bound to s exactly when the bag supplies it as the non-empty string s. -/
theorem processOptional_at (p : paramMapping) (args : List (String × GoValue))
    (post : List paramMapping) (hpost : ∀ o ∈ post, o.apiName ≠ p.apiName) :
    ∀ (pre : List paramMapping) ps, (∀ o ∈ pre, o.apiName ≠ p.apiName) →
      lookupParam ps p.apiName = none →
      ∀ s, (lookupParam (processOptional (pre ++ p :: post) args ps) p.apiName = some s ↔
        (lookupArg args p.toolName = some (GoValue.str s) ∧ s ≠ "")) := by
  have hpostmem : p.apiName ∉ post.map paramMapping.apiName := by
    simp only [List.mem_map]
    rintro ⟨o, ho, he⟩
    exact hpost o ho he
  intro pre
  induction pre with
  | nil =>
    intro ps _ hps s
    simp only [List.nil_append]
    cases hl : lookupArg args p.toolName with
    | none =>
      simp only [processOptional, hl]
      rw [processOptional_preserve post args p.apiName ps hpostmem, hps]
      simp
    | some raw =>
      cases raw with
      | str t =>
        by_cases ht : t = ""
        · subst ht
          simp only [processOptional, hl]
          rw [if_neg (by simp)]
          rw [processOptional_preserve post args p.apiName ps hpostmem, hps]
          constructor
          · intro hx; exact absurd hx (by simp)
          · rintro ⟨hx, hne⟩
            injection hx with hx₁
            injection hx₁ with hx₂
            exact absurd hx₂.symm hne
        · simp only [processOptional, hl]
          rw [if_pos ht]
          rw [processOptional_preserve post args p.apiName _ hpostmem,
              lookupParam_setParam_self]
          constructor
          · intro hx
            injection hx with hx₁
            subst hx₁
            exact ⟨rfl, ht⟩
          · rintro ⟨hx, _⟩
            injection hx with hx₁
            injection hx₁ with hx₂
            rw [hx₂]
      | num m =>
        simp only [processOptional, hl]
        rw [processOptional_preserve post args p.apiName ps hpostmem, hps]
        simp
      | boolean b =>
        simp only [processOptional, hl]
        rw [processOptional_preserve post args p.apiName ps hpostmem, hps]
        simp
      | nullVal =>
        simp only [processOptional, hl]
        rw [processOptional_preserve post args p.apiName ps hpostmem, hps]
        simp
  | cons q pre ih =>
    intro ps hpre hps s
    have hq : q.apiName ≠ p.apiName := hpre q (by simp)
    have hpre₂ : ∀ o ∈ pre, o.apiName ≠ p.apiName := fun o ho => hpre o (by simp [ho])
    cases hl : lookupArg args q.toolName with
    | none =>
      simp only [List.cons_append, processOptional, hl]
      exact ih ps hpre₂ hps s
    | some raw =>
      cases raw with
      | str t =>
        simp only [List.cons_append, processOptional, hl]
        by_cases ht : t = ""
        · rw [if_neg (by simp [ht])]
          exact ih ps hpre₂ hps s
        · rw [if_pos ht]
          refine ih _ hpre₂ ?_ s
          rw [lookupParam_setParam_ne _ _ _ _ (fun hc => hq hc.symm)]
          exact hps
      | num m =>
        simp only [List.cons_append, processOptional, hl]
        exact ih ps hpre₂ hps s
      | boolean b =>
        simp only [List.cons_append, processOptional, hl]
        exact ih ps hpre₂ hps s
      | nullVal =>
        simp only [List.cons_append, processOptional, hl]
        exact ih ps hpre₂ hps s

/-- A key occurring in the parameter list is found by lookup. -/
theorem mem_fst_lookup_isSome (ps : List (String × String)) (n : String)
    (h : n ∈ ps.map Prod.fst) : (lookupParam ps n).isSome := by
  induction ps with
  | nil => simp at h
  | cons hd tl ih =>
    obtain ⟨k, v⟩ := hd
    by_cases hk : k = n
    · simp [lookupParam, hk]
    · simp only [List.map_cons, List.mem_cons] at h
      rcases h with h | h
      · exact absurd h.symm hk
      · simp only [lookupParam, if_neg hk]
        exact ih h

/-! Claim theorems. -/

/-- C1: for every tool dispatch, the credential precedence is fixed: a
non-empty Authorization header of the call envelope determines the resolved
credential (independently of the process-wide key, being either the header
verbatim or its Bearer-stripped tail); with an empty header the process-wide
INTERZOID_API_KEY value is used; and the outbound request carries the
x-api-key header exactly when the resolved credential is non-empty, so an
empty credential yields a request with no credential header. -/
theorem credential_precedence (request : CallToolRequest)
    (envKey envKeyB apiKey endpoint : String) (params : List (String × String)) :
    (request.authHeader ≠ "" →
      getAPIKey request envKey = getAPIKey request envKeyB ∧
      (getAPIKey request envKey = request.authHeader ∨
        getAPIKey request envKey = request.authHeader.drop 7)) ∧
    (request.authHeader = "" → getAPIKey request envKey = envKey) ∧
    (apiKey ≠ "" → (buildRequest apiKey endpoint params).headers = [("x-api-key", apiKey)]) ∧
    (apiKey = "" → (buildRequest apiKey endpoint params).headers = []) := by
  refine ⟨?_, ?_, ?_, ?_⟩
  · intro h
    constructor
    · simp only [getAPIKey]
      rw [if_pos h, if_pos h]
    · simp only [getAPIKey]
      rw [if_pos h]
      by_cases hc : request.authHeader.length > 7 ∧
          (request.authHeader.take 7 = "Bearer " ∨ request.authHeader.take 7 = "bearer ")
      · rw [if_pos hc]
        exact Or.inr rfl
      · rw [if_neg hc]
        exact Or.inl rfl
  · intro h
    simp [getAPIKey, h]
  · intro h
    simp [buildRequest, h]
  · intro h
    simp [buildRequest, h]

/-- Witness for C1: with an empty Authorization header the process-wide key
is resolved. -/
theorem credential_precedence_witness :
    getAPIKey ⟨"", ArgsField.nil⟩ "envkey" = "envkey" :=
  (credential_precedence ⟨"", ArgsField.nil⟩ "envkey" "other" "k" "/getgender" []).2.1 rfl

/-- C8: the outbound URL parts (base address, endpoint, query) do not depend
on the credential, and the credential shows up only as the single x-api-key
header, present exactly when it is non-empty. -/
theorem credential_url_independence (apiKey apiKeyB endpoint : String)
    (params : List (String × String)) :
    (buildRequest apiKey endpoint params).baseURL =
      (buildRequest apiKeyB endpoint params).baseURL ∧
    (buildRequest apiKey endpoint params).endpoint =
      (buildRequest apiKeyB endpoint params).endpoint ∧
    (buildRequest apiKey endpoint params).query =
      (buildRequest apiKeyB endpoint params).query ∧
    (buildRequest apiKey endpoint params).headers =
      (if apiKey = "" then [] else [("x-api-key", apiKey)]) := by
  refine ⟨rfl, rfl, rfl, ?_⟩
  by_cases h : apiKey = ""
  · simp [buildRequest, h]
  · simp [buildRequest, h]

/-- C9: an Authorization header longer than 7 characters starting with
Bearer or bearer followed by a space resolves to the header with that prefix
removed; any other non-empty header resolves verbatim. -/
theorem bearer_stripping (auth envKey : String) (argsF : ArgsField) :
    (auth.length > 7 → (auth.take 7 = "Bearer " ∨ auth.take 7 = "bearer ") →
      getAPIKey ⟨auth, argsF⟩ envKey = auth.drop 7) ∧
    (auth ≠ "" →
      ¬(auth.length > 7 ∧ (auth.take 7 = "Bearer " ∨ auth.take 7 = "bearer ")) →
      getAPIKey ⟨auth, argsF⟩ envKey = auth) := by
  constructor
  · intro hlen hpre
    have hne : auth ≠ "" := by
      intro hc
      subst hc
      exact absurd hlen (by decide)
    simp only [getAPIKey]
    rw [if_pos hne, if_pos ⟨hlen, hpre⟩]
  · intro hne hc
    simp only [getAPIKey]
    rw [if_pos hne, if_neg hc]

/-- Witness for C9: a Bearer-prefixed header is stripped. -/
theorem bearer_stripping_witness :
    getAPIKey ⟨"Bearer abc123", ArgsField.nil⟩ "env" = "abc123" :=
  (bearer_stripping "Bearer abc123" "env" ArgsField.nil).1 (by decide) (Or.inl (by decide))

/-- C10: a nil or non-map argument payload extracts to the empty bag without
failing, and a tool with at least one required parameter then reports the
first required parameter in descriptor order as missing instead of
crashing. -/
theorem malformed_args_safe (auth : String) (argsF : ArgsField) (envKey : String)
    (p : paramMapping) (rest op : List paramMapping) :
    (getArguments ⟨auth, ArgsField.nil⟩ = [] ∧ getArguments ⟨auth, ArgsField.nonMap⟩ = []) ∧
    (argsF = ArgsField.nil ∨ argsF = ArgsField.nonMap →
      prepareCall (p :: rest) op envKey ⟨auth, argsF⟩ =
        .earlyError (toolResultError ("Missing required parameter: " ++ p.toolName))) := by
  constructor
  · exact ⟨rfl, rfl⟩
  · intro h
    have hargs : getArguments ⟨auth, argsF⟩ = [] := by
      rcases h with h | h <;> rw [h] <;> rfl
    have hm := processRequired_missing p rest [] rfl [] [] (by intro q hq; simp at hq)
    simp only [List.nil_append] at hm
    simp only [prepareCall, hargs, hm]

/-- Witness for C10: a non-map argument payload yields the missing-parameter
result for the first required parameter. -/
theorem malformed_args_safe_witness :
    prepareCall [same "company"] [] "k" ⟨"", ArgsField.nonMap⟩ =
      .earlyError (toolResultError ("Missing required parameter: " ++ (same "company").toolName)) :=
  (malformed_args_safe "" ArgsField.nonMap "k" (same "company") [] []).2 (Or.inr rfl)

/-- C2: a 402 response whose body decodes as a JSON document yields a
successful (non-error) envelope carrying that document under the
paymentRequirements key together with the payment_required status marker and
the x402 flag; a 402 body that fails to decode yields an error embedding the
raw body text. -/
theorem payment_required_classification (unmarshal : Unmarshal)
    (apiKey endpoint : String) (params : List (String × String)) (body : String) :
    (∀ doc, unmarshal body = .ok doc →
      callInterzoidAPI unmarshal apiKey endpoint params (.response 402 body) =
        .ok [("status", Json.str "payment_required"), ("x402", Json.bool true),
             ("paymentRequirements", Json.obj doc)]) ∧
    (∀ e, unmarshal body = .error e →
      callInterzoidAPI unmarshal apiKey endpoint params (.response 402 body) =
        .error ("402 Payment Required: " ++ body)) := by
  constructor
  · intro doc h
    simp [callInterzoidAPI, h]
  · intro e h
    simp [callInterzoidAPI, h]

/-- Witness for C2: a 402 with a decodable body produces the non-error
payment envelope. -/
theorem payment_required_classification_witness :
    callInterzoidAPI sampleUnmarshal "key123" "/getrates" []
        (.response 402 "\x7b\"amount\":\"12500\"\x7d") =
      .ok [("status", Json.str "payment_required"), ("x402", Json.bool true),
           ("paymentRequirements", Json.obj [("amount", Json.str "12500")])] :=
  (payment_required_classification sampleUnmarshal "key123" "/getrates" []
    "\x7b\"amount\":\"12500\"\x7d").1 [("amount", Json.str "12500")] rfl

/-- C4: once validation has passed, a 200 response with a decodable body
yields the non-error result whose text is the rendered document; a 200 body
that fails to decode yields an error; and any status other than 200 and 402
yields an error whose message contains the status code and the raw body
text. -/
theorem response_classification (unmarshal : Unmarshal) (endpoint : String)
    (rp op : List paramMapping) (envKey : String) (request : CallToolRequest)
    (apiKey : String) (params : List (String × String)) (body : String) (status : Nat)
    (hprep : prepareCall rp op envKey request = .callAPI apiKey params) :
    (∀ doc, unmarshal body = .ok doc →
      genericHandler unmarshal endpoint rp op envKey request (.response 200 body) =
        (toolResultText (marshalIndent doc), none)) ∧
    (∀ e, unmarshal body = .error e →
      genericHandler unmarshal endpoint rp op envKey request (.response 200 body) =
        (toolResultError ("failed to parse JSON response: " ++ e), none)) ∧
    (status ≠ 200 → status ≠ 402 →
      genericHandler unmarshal endpoint rp op envKey request (.response status body) =
        (toolResultError ("API returned status " ++ toString status ++ ": " ++ body), none) ∧
      containsSubstr ("API returned status " ++ toString status ++ ": " ++ body)
        (toString status) ∧
      containsSubstr ("API returned status " ++ toString status ++ ": " ++ body) body) := by
  refine ⟨?_, ?_, ?_⟩
  · intro doc h
    simp only [genericHandler, hprep]
    simp [callInterzoidAPI, h]
  · intro e h
    simp only [genericHandler, hprep]
    simp [callInterzoidAPI, h]
  · intro h200 h402
    refine ⟨?_, ?_, ?_⟩
    · simp only [genericHandler, hprep]
      simp [callInterzoidAPI, h200, h402]
    · refine ⟨"API returned status ", ": " ++ body, ?_⟩
      rw [String.append_assoc]
    · refine ⟨"API returned status " ++ toString status ++ ": ", "", ?_⟩
      rw [String.append_empty]

/-- Witness for C4: a validated call with a 200 response and a decodable
body returns the rendered document as a non-error result. -/
theorem response_classification_witness :
    genericHandler sampleUnmarshal "/getrates" [same "from", same "to"] [] "k"
        ⟨"", ArgsField.strMap [("from", GoValue.str "USD"), ("to", GoValue.str "JPY")]⟩
        (.response 200 "\x7b\"score\":98\x7d") =
      (toolResultText (marshalIndent [("score", Json.num 98)]), none) :=
  (response_classification sampleUnmarshal "/getrates" [same "from", same "to"] [] "k"
      ⟨"", ArgsField.strMap [("from", GoValue.str "USD"), ("to", GoValue.str "JPY")]⟩
      "k" [("from", "USD"), ("to", "JPY")] "\x7b\"score\":98\x7d" 500 rfl).1
    [("score", Json.num 98)] rfl

/-- C5: whatever the request and network outcome, the handler returns a
non-empty textual result paired with a nil Go error; no failure class
escapes the dispatch boundary. -/
theorem handler_total_inband (unmarshal : Unmarshal) (endpoint : String)
    (rp op : List paramMapping) (envKey : String) (request : CallToolRequest)
    (outcome : HttpOutcome) :
    (genericHandler unmarshal endpoint rp op envKey request outcome).2 = none ∧
    (genericHandler unmarshal endpoint rp op envKey request outcome).1.text ≠ "" := by
  cases hp : prepareCall rp op envKey request with
  | earlyError res =>
    have hres : res.isError = true ∧ res.text ≠ "" := by
      simp only [prepareCall] at hp
      cases hpr : processRequired rp (getArguments request) [] with
      | error res₀ =>
        rw [hpr] at hp
        injection hp with h₁
        rw [← h₁]
        exact processRequired_error_shape rp (getArguments request) [] res₀ hpr
      | ok params₀ =>
        rw [hpr] at hp
        simp at hp
    simp only [genericHandler, hp]
    exact ⟨trivial, hres.2⟩
  | callAPI apiKey params =>
    cases hc : callInterzoidAPI unmarshal apiKey endpoint params outcome with
    | error e =>
      simp only [genericHandler, hp, hc]
      exact ⟨trivial, callInterzoidAPI_error_ne_empty unmarshal apiKey endpoint params outcome e hc⟩
    | ok result =>
      simp only [genericHandler, hp, hc]
      exact ⟨trivial, marshalIndent_ne_empty result⟩

/-- C3: scanning required parameters in descriptor order, a missing caller
name (all earlier entries supplied as strings) stops dispatch before any
network call with the MissingParameter result naming exactly that parameter;
a present but non-string value likewise stops dispatch with the
InvalidParameterType result naming that parameter; and when every required
parameter is supplied as a string (API names distinct and not reused by
optional entries), each required value is bound under its remote name in the
outbound parameter set. -/
theorem required_param_validation (rp op : List paramMapping) (envKey : String)
    (request : CallToolRequest) :
    (∀ pre p post, rp = pre ++ p :: post →
      (∀ q ∈ pre, ∃ s, lookupArg (getArguments request) q.toolName = some (GoValue.str s)) →
      lookupArg (getArguments request) p.toolName = none →
      prepareCall rp op envKey request =
        .earlyError (toolResultError ("Missing required parameter: " ++ p.toolName))) ∧
    (∀ pre p post v, rp = pre ++ p :: post →
      (∀ q ∈ pre, ∃ s, lookupArg (getArguments request) q.toolName = some (GoValue.str s)) →
      lookupArg (getArguments request) p.toolName = some v →
      (∀ s, v ≠ GoValue.str s) →
      prepareCall rp op envKey request =
        .earlyError (toolResultError ("Parameter " ++ p.toolName ++ " must be a string"))) ∧
    ((∀ q ∈ rp, ∃ s, lookupArg (getArguments request) q.toolName = some (GoValue.str s)) →
      rp.Pairwise (fun a b => a.apiName ≠ b.apiName) →
      (∀ o ∈ op, ∀ q ∈ rp, o.apiName ≠ q.apiName) →
      ∃ params, prepareCall rp op envKey request = .callAPI (getAPIKey request envKey) params ∧
        ∀ q ∈ rp, ∀ s, lookupArg (getArguments request) q.toolName = some (GoValue.str s) →
          lookupParam params q.apiName = some s) := by
  refine ⟨?_, ?_, ?_⟩
  · intro pre p post hrp hpre hp
    subst hrp
    have hm := processRequired_missing p post (getArguments request) hp pre [] hpre
    simp only [prepareCall, hm]
  · intro pre p post v hrp hpre hp hv
    subst hrp
    have hm := processRequired_badtype p post (getArguments request) v hp hv pre [] hpre
    simp only [prepareCall, hm]
  · intro hall hpw hdisj
    obtain ⟨params₀, hok⟩ := processRequired_ok rp (getArguments request) [] hall
    refine ⟨processOptional op (getArguments request) params₀, ?_, ?_⟩
    · simp only [prepareCall, hok]
    · intro q hq s hqs
      have hnin : q.apiName ∉ op.map paramMapping.apiName := by
        simp only [List.mem_map]
        rintro ⟨o, ho, he⟩
        exact hdisj o ho q hq he
      rw [processOptional_preserve op (getArguments request) q.apiName params₀ hnin]
      exact processRequired_values rp (getArguments request) [] params₀ hok hpw q hq s hqs

/-- Witness for C3: omitting the second required parameter of a two-
parameter descriptor yields the MissingParameter result naming it. -/
theorem required_param_validation_witness :
    prepareCall [same "org1", same "org2"] [] "k"
        ⟨"", ArgsField.strMap [("org1", GoValue.str "Acme Inc")]⟩ =
      .earlyError (toolResultError ("Missing required parameter: " ++ (same "org2").toolName)) :=
  (required_param_validation [same "org1", same "org2"] [] "k"
      ⟨"", ArgsField.strMap [("org1", GoValue.str "Acme Inc")]⟩).1
    [same "org1"] (same "org2") [] rfl
    (by
      intro q hq
      simp only [List.mem_singleton] at hq
      subst hq
      exact ⟨"Acme Inc", rfl⟩)
    rfl

/-- C6: an optional parameter whose API name is bound by no other entry is
included in the outbound parameter set exactly when the bag supplies it as a
non-empty string; in every other case it is silently dropped, and the
optional loop never turns a validated call into an error. -/
theorem optional_param_inclusion (op : List paramMapping)
    (args : List (String × GoValue)) (params₀ : List (String × String))
    (pre post : List paramMapping) (p : paramMapping) (s : String)
    (rp : List paramMapping) (envKey : String) (request : CallToolRequest) :
    (op = pre ++ p :: post →
      (∀ o ∈ pre, o.apiName ≠ p.apiName) →
      (∀ o ∈ post, o.apiName ≠ p.apiName) →
      lookupParam params₀ p.apiName = none →
      (lookupParam (processOptional op args params₀) p.apiName = some s ↔
        (lookupArg args p.toolName = some (GoValue.str s) ∧ s ≠ ""))) ∧
    (∀ params, processRequired rp (getArguments request) [] = .ok params →
      prepareCall rp op envKey request =
        .callAPI (getAPIKey request envKey) (processOptional op (getArguments request) params)) := by
  constructor
  · intro hop hpre hpost hp₀
    subst hop
    exact processOptional_at p args post hpost pre params₀ hpre hp₀ s
  · intro params hok
    simp only [prepareCall, hok]

/-- Witness for C6: a supplied non-empty optional string is included under
its remote name. -/
theorem optional_param_inclusion_witness :
    lookupParam (processOptional [same "algorithm"]
        [("algorithm", GoValue.str "ai-deep")] []) (same "algorithm").apiName =
      some "ai-deep" :=
  ((optional_param_inclusion [same "algorithm"] [("algorithm", GoValue.str "ai-deep")] []
      [] [] (same "algorithm") "ai-deep" [] "k" ⟨"", ArgsField.nil⟩).1 rfl
    (by intro o ho; simp at ho) (by intro o ho; simp at ho) rfl).mpr
    ⟨rfl, by decide⟩

/-- C7: every key of the outbound parameter set (and of the query assembled
from it) is an API name mapped by the descriptor, so no caller-facing or
foreign name leaks through; and when exactly the required parameters are
supplied as non-empty strings and no optional parameter is supplied, the
outbound keys are exactly the required API names. -/
theorem param_name_soundness (rp op : List paramMapping) (envKey endpoint : String)
    (request : CallToolRequest) (apiKey : String) (params : List (String × String)) :
    (prepareCall rp op envKey request = .callAPI apiKey params →
      (∀ n, (lookupParam params n).isSome → n ∈ (rp ++ op).map paramMapping.apiName) ∧
      (∀ n, (lookupParam (buildRequest apiKey endpoint params).query n).isSome →
        n ∈ (rp ++ op).map paramMapping.apiName)) ∧
    ((∀ q ∈ rp, ∃ s, lookupArg (getArguments request) q.toolName = some (GoValue.str s) ∧ s ≠ "") →
      (∀ o ∈ op, lookupArg (getArguments request) o.toolName = none) →
      ∃ params₂, prepareCall rp op envKey request = .callAPI (getAPIKey request envKey) params₂ ∧
        ∀ n, ((lookupParam params₂ n).isSome ↔ n ∈ rp.map paramMapping.apiName)) := by
  constructor
  · intro hp
    have hmain : ∀ n, (lookupParam params n).isSome → n ∈ (rp ++ op).map paramMapping.apiName := by
      intro n hn
      simp only [prepareCall] at hp
      cases hpr : processRequired rp (getArguments request) [] with
      | error res => rw [hpr] at hp; simp at hp
      | ok params₀ =>
        rw [hpr] at hp
        injection hp with h₁ h₂
        rw [← h₂] at hn
        rcases processOptional_keys op (getArguments request) n params₀ hn with h | h
        · simp [h]
        · rcases (processRequired_keys rp (getArguments request) n [] params₀ hpr).mp h
            with h₃ | h₃
          · simp [h₃]
          · simp [lookupParam] at h₃
    refine ⟨hmain, ?_⟩
    intro n hn
    rcases foldl_setParam_keys params [] n hn with h | h
    · exact hmain n (mem_fst_lookup_isSome params n h)
    · simp [lookupParam] at h
  · intro hreq hopt
    obtain ⟨params₀, hok⟩ := processRequired_ok rp (getArguments request) []
      (fun q hq => (hreq q hq).imp fun s hs => hs.1)
    refine ⟨processOptional op (getArguments request) params₀, by simp only [prepareCall, hok], ?_⟩
    intro n
    rw [processOptional_absent op (getArguments request) hopt params₀]
    rw [processRequired_keys rp (getArguments request) n [] params₀ hok]
    simp [lookupParam]

/-- Witness for C7: supplying exactly the one required parameter of a
descriptor yields an outbound set whose keys are exactly that remote
name. -/
theorem param_name_soundness_witness :
    ∃ params₂, prepareCall [same "fullname"] [] "k"
        ⟨"", ArgsField.strMap [("fullname", GoValue.str "Bob Smith")]⟩ =
      .callAPI (getAPIKey ⟨"", ArgsField.strMap [("fullname", GoValue.str "Bob Smith")]⟩ "k")
        params₂ ∧
      ∀ n, ((lookupParam params₂ n).isSome ↔ n ∈ [same "fullname"].map paramMapping.apiName) :=
  (param_name_soundness [same "fullname"] [] "k" "/getfullnamematch"
      ⟨"", ArgsField.strMap [("fullname", GoValue.str "Bob Smith")]⟩ "" []).2
    (by
      intro q hq
      simp only [List.mem_singleton] at hq
      subst hq
      exact ⟨"Bob Smith", rfl, by decide⟩)
    (by intro o ho; simp at ho)

end Interzoid
